import Mathlib

/-!
# Verification of `src/inputIntoSelect.js` (`replaceInputWithSelect`)

A shallow embedding of the DOM fragment that the script manipulates and of
the function `replaceInputWithSelect(fieldName, options)`.

The document is modelled as a forest of nodes; an element node carries a
tag name, an ordered attribute list and an ordered child list.  The
function's behaviour is modelled line by line:

* the source builds its selector by raw interpolation,
  `` document.querySelector(`input[name="${fieldName}"]`) ``, so the
  call's fate depends on how `"` ++ fieldName ++ `"]` tokenizes as a CSS
  double-quoted string.  `cssRun` implements that tokenization exactly
  (CSS Syntax: literal code points; `\` escapes, including hex escapes
  with an optional trailing whitespace and line continuations; newline =
  bad string; EOF = unterminated; the preprocessing step maps CR/CRLF/FF
  to LF and NUL to U+FFFD).  `parseFieldSelector` classifies the result:
  `invalid` (querySelector throws a SyntaxError the function does not
  catch), `attrSelector nm` (the string token closes exactly at the
  appended quote, so the selector is precisely `input[name="nm"]` with
  `nm` the *decoded* field name, and the lookup is the first element in
  tree order with tag `input` and `name` attribute equal to `nm` —
  `findFirstL` with `isInputNamed nm`; `name` is not in HTML's legacy
  case-insensitive attribute list, so matching is exact), or `injected`
  (an unescaped `"` inside fieldName makes the rest of fieldName parse as
  arbitrary selector text: the resulting selector list may be invalid or
  may match arbitrary elements; this embedding deliberately leaves that
  case unspecified and no theorem appeals to it);
* `document.createElement('select')` plus the attribute-copy loop
  (`Array.from(input.attributes).forEach(attr => select.setAttribute(...))`)
  — `buildSelect` / `copyAttrs` / `setAttribute`;
* the options loop (`option.value = opt.value; option.textContent =
  opt.label; select.appendChild(option)`) — `createOption`; a JavaScript
  property access on an object that lacks the property yields `undefined`;
  `HTMLOptionElement.value` is a non-nullable DOMString, so assigning
  `undefined` stores the string `"undefined"` (`jsString`), while
  `Node.textContent` is a *nullable* DOMString, so `undefined` converts
  to `null`, which the setter treats as the empty string — a missing
  label therefore produces an option with no text child (`jsTextContent`);
* `input.parentNode.replaceChild(select, input)` — `replaceFirstL`;
* `console.warn(...)` — the `warnings` field of the result;
* `return select` / the early `return` — the `returned` field; a thrown
  SyntaxError is the separate outcome `RunOutcome.thrown`.
-/

namespace InputIntoSelect

/-- A DOM attribute: a name/value pair of strings. -/
structure Attr where
  name : String
  value : String
deriving DecidableEq, Repr

/-- A DOM node: an element (tag, ordered attributes, ordered children) or a
text node. -/
inductive Node where
  | elem (tag : String) (attrs : List Attr) (children : List Node)
  | text (s : String)
deriving Repr

/-- An entry of the `options` array: a JavaScript object whose `label` and
`value` properties may each be absent (`none` models a missing property,
i.e. `undefined`). -/
structure Opt where
  label : Option String
  value : Option String
deriving DecidableEq, Repr

/-- JavaScript-to-DOMString coercion of a possibly-missing property value
assigned to a *non-nullable* DOMString attribute (such as
`HTMLOptionElement.value`): `ToString(undefined) = "undefined"`. -/
def jsString : Option String → String
  | none => "undefined"
  | some s => s

/-- JavaScript coercion of a possibly-missing property value assigned to
`Node.textContent`, a *nullable* DOMString: `undefined` converts to
`null`, and the setter treats `null` as the empty string. -/
def jsTextContent : Option String → String
  | none => ""
  | some s => s

/-- Tag of a node (text nodes have no tag). -/
def tagOf : Node → String
  | Node.elem t _ _ => t
  | Node.text _ => ""

/-- Attribute list of a node (text nodes have none). -/
def attrsOf : Node → List Attr
  | Node.elem _ a _ => a
  | Node.text _ => []

/-- Child list of a node (text nodes have none). -/
def childrenOf : Node → List Node
  | Node.elem _ _ c => c
  | Node.text _ => []

/-- `getAttribute`: value of the first attribute with the given name. -/
def getAttr (n : String) (attrs : List Attr) : Option String :=
  (attrs.find? (fun a => a.name == n)).map Attr.value

/-- `setAttribute`: change the value in place if the name is present,
otherwise append the new attribute at the end. -/
def setAttribute (n v : String) (attrs : List Attr) : List Attr :=
  if attrs.any (fun a => a.name == n) then
    attrs.map (fun a => if a.name == n then ⟨n, v⟩ else a)
  else
    attrs ++ [⟨n, v⟩]

/-- The attribute-copy loop of the source: fold `setAttribute` over the
source element's attributes, starting from the fresh (attribute-less)
`select`. -/
def copyAttrs (src : List Attr) : List Attr :=
  src.foldl (fun acc a => setAttribute a.name a.value acc) []

/-- Setting `textContent` to `s` replaces all children by a single text
node, or by nothing when `s` is empty. -/
def setTextContent (s : String) : List Node :=
  if s = "" then [] else [Node.text s]

/-- The body of the options loop: `document.createElement('option');
option.value = opt.value; option.textContent = opt.label`.  Assigning the
reflected `value` IDL attribute sets the `value` content attribute (a
missing `value` stores `"undefined"`); assigning `textContent` a missing
`label` stores the empty string, leaving the option without a text
child. -/
def createOption (o : Opt) : Node :=
  Node.elem "option" (setAttribute "value" (jsString o.value) [])
    (setTextContent (jsTextContent o.label))

/-- The selector predicate `input[name="<f>"]`: an element whose tag is
`input` and whose `name` attribute equals `f`. -/
def isInputNamed (f : String) : Node → Bool
  | Node.elem t attrs _ => t == "input" && getAttr "name" attrs == some f
  | Node.text _ => false

/-- Any element whose `name` attribute equals `f`, of whatever kind (this
is the spec's wording of the lookup; the source's selector is
`isInputNamed`). -/
def hasNameAttr (f : String) : Node → Bool
  | Node.elem _ attrs _ => getAttr "name" attrs == some f
  | Node.text _ => false

/-! ### The interpolated selector

`replaceInputWithSelect` passes `` `input[name="${fieldName}"]` `` to
`querySelector`.  The characters of `fieldName` land inside a CSS
double-quoted string literal, so the selector's meaning (or invalidity)
is decided by CSS string tokenization of `fieldName ++ "\"]"`. -/

/-- A character that stands for itself inside a CSS double-quoted string
and survives CSS input preprocessing unchanged: anything except `"`,
`\`, the newline characters LF / CR / FF, and NUL. -/
def plainChar (c : Char) : Bool :=
  !(c == '"') && !(c == '\\') && !(c == '\n') && !(c == '\r') &&
    !(c == '\x0C') && !(c == '\x00')

/-- A field name whose interpolation yields the plain attribute selector
denoting the field name itself. -/
def plainField (f : String) : Bool :=
  f.data.all plainChar

/-- CSS hex digit. -/
def isHexChar (c : Char) : Bool :=
  c.isDigit || ('a' ≤ c && c ≤ 'f') || ('A' ≤ c && c ≤ 'F')

/-- Value of a CSS hex digit. -/
def hexVal (c : Char) : Nat :=
  if c.isDigit then c.toNat - 48
  else if 'a' ≤ c ∧ c ≤ 'f' then c.toNat - 87
  else if 'A' ≤ c ∧ c ≤ 'F' then c.toNat - 55
  else 0

/-- Code point denoted by a CSS hex escape: zero, surrogates and values
beyond U+10FFFF become U+FFFD. -/
def codePointOf (n : Nat) : Char :=
  if n = 0 ∨ 0x10FFFF < n ∨ (0xD800 ≤ n ∧ n ≤ 0xDFFF) then '�'
  else Char.ofNat n

/-- CSS whitespace (after input preprocessing): space, tab, LF. -/
def cssWhite (c : Char) : Bool :=
  c == ' ' || c == '\t' || c == '\n'

/-- CSS input preprocessing: CRLF, CR and FF become LF; NUL becomes
U+FFFD. -/
def cssPreprocess : List Char → List Char
  | [] => []
  | ['\r'] => ['\n']
  | '\r' :: '\n' :: rest => '\n' :: cssPreprocess rest
  | '\r' :: c :: rest => '\n' :: cssPreprocess (c :: rest)
  | c :: rest =>
      if c = '\x0C' then '\n' :: cssPreprocess rest
      else if c = '\x00' then '�' :: cssPreprocess rest
      else c :: cssPreprocess rest

/-- Tokenizer state while consuming a CSS double-quoted string: plain
consumption, just after a backslash, or inside a hex escape (decoded
prefix is kept reversed; `left` is how many more hex digits may be
consumed). -/
inductive CssState where
  | normal (acc : List Char)
  | esc (acc : List Char)
  | hex (acc : List Char) (val : Nat) (left : Nat)

/-- Consume a CSS double-quoted string token (the opening quote already
read): returns the decoded string and the input after the closing quote,
or `none` when the token is a bad string (unescaped newline) or
unterminated at EOF — in a selector either case is a parse error, so
`querySelector` throws. -/
def cssRun : CssState → List Char → Option (List Char × List Char)
  | CssState.normal _, [] => none
  | CssState.normal acc, c :: rest =>
      if c = '"' then some (acc.reverse, rest)
      else if c = '\n' then none
      else if c = '\\' then cssRun (CssState.esc acc) rest
      else cssRun (CssState.normal (c :: acc)) rest
  | CssState.esc _, [] => none
  | CssState.esc acc, c :: rest =>
      if c = '\n' then cssRun (CssState.normal acc) rest
      else if isHexChar c then cssRun (CssState.hex acc (hexVal c) 5) rest
      else cssRun (CssState.normal (c :: acc)) rest
  | CssState.hex _ _ _, [] => none
  | CssState.hex acc val left, c :: rest =>
      if 0 < left ∧ isHexChar c then
        cssRun (CssState.hex acc (16 * val + hexVal c) (left - 1)) rest
      else if cssWhite c then cssRun (CssState.normal (codePointOf val :: acc)) rest
      else if c = '"' then some ((codePointOf val :: acc).reverse, rest)
      else if c = '\n' then none
      else if c = '\\' then cssRun (CssState.esc (codePointOf val :: acc)) rest
      else cssRun (CssState.normal (c :: codePointOf val :: acc)) rest

/-- Consume a CSS double-quoted string from the start. -/
def cssString (cs : List Char) : Option (List Char × List Char) :=
  cssRun (CssState.normal []) cs

/-- How `querySelector` treats the interpolated selector
`input[name="` ++ f ++ `"]`. -/
inductive SelectorParse where
  | invalid
  | attrSelector (nm : String)
  | injected
deriving DecidableEq, Repr

/-- Classify the interpolated selector.  `invalid`: the string token is
bad or unterminated, the selector does not parse, `querySelector` throws
a SyntaxError.  `attrSelector nm`: the string token closes exactly at the
appended quote, so the whole selector is `input[name="nm"]` with `nm` the
decoded field name (equal to `f` when `f` is plain).  `injected`: an
unescaped `"` inside `f` closed the string early and the rest of `f` is
parsed as further selector text — outside the modelled fragment (the
resulting selector list may be invalid or may match arbitrary elements);
no theorem below relies on this case. -/
def parseFieldSelector (f : String) : SelectorParse :=
  match cssString (cssPreprocess f.data ++ ['"', ']']) with
  | none => SelectorParse.invalid
  | some (decoded, rest) =>
      if rest = [']'] then SelectorParse.attrSelector (String.mk decoded)
      else SelectorParse.injected

mutual

/-- `querySelector` on a single subtree: first node in preorder satisfying
the predicate. -/
def findFirstN (pr : Node → Bool) : Node → Option Node
  | Node.elem t a cs =>
      if pr (Node.elem t a cs) then some (Node.elem t a cs)
      else findFirstL pr cs
  | Node.text s =>
      if pr (Node.text s) then some (Node.text s) else none

/-- `querySelector` on a forest: first node in document (pre)order
satisfying the predicate. -/
def findFirstL (pr : Node → Bool) : List Node → Option Node
  | [] => none
  | n :: ns =>
      match findFirstN pr n with
      | some r => some r
      | none => findFirstL pr ns

end

mutual

/-- `parentNode.replaceChild(new, found)` on a subtree: replace the first
node in preorder satisfying the predicate; `none` if there is none. -/
def replaceFirstN (pr : Node → Bool) (new : Node) : Node → Option Node
  | Node.elem t a cs =>
      if pr (Node.elem t a cs) then some new
      else (replaceFirstL pr new cs).map (fun cs2 => Node.elem t a cs2)
  | Node.text s =>
      if pr (Node.text s) then some new else none

/-- `parentNode.replaceChild(new, found)` on a forest. -/
def replaceFirstL (pr : Node → Bool) (new : Node) : List Node → Option (List Node)
  | [] => none
  | n :: ns =>
      match replaceFirstN pr new n with
      | some n2 => some (n2 :: ns)
      | none => (replaceFirstL pr new ns).map (fun ns2 => n :: ns2)

end

mutual

/-- The `textContent` getter: concatenation of the text data of all
descendant text nodes, in tree order. -/
def textContentN : Node → String
  | Node.elem _ _ cs => textContentL cs
  | Node.text s => s

/-- `textContent` of a forest of nodes. -/
def textContentL : List Node → String
  | [] => ""
  | n :: ns => textContentN n ++ textContentL ns

end

/-- The `value` IDL attribute of an `option` element: the `value` content
attribute if present, otherwise the element's text. -/
def optionValue (n : Node) : String :=
  match getAttr "value" (attrsOf n) with
  | some v => v
  | none => textContentN n

mutual

/-- All nodes of a subtree in preorder (document order). -/
def preorderN : Node → List Node
  | Node.elem t a cs => Node.elem t a cs :: preorderL cs
  | Node.text s => [Node.text s]

/-- All nodes of a forest in document order. -/
def preorderL : List Node → List Node
  | [] => []
  | n :: ns => preorderN n ++ preorderL ns

end

mutual

/-- The node addressed by a path of child indices, starting inside a
node: `[]` addresses the node itself. -/
def getPathN : Node → List Nat → Option Node
  | n, [] => some n
  | Node.elem _ _ cs, i :: q => getPathF cs (i :: q)
  | Node.text _, _ :: _ => none

/-- The node addressed by a path of child indices in a forest: `i :: q`
addresses the node reached by descending into the `i`-th root. -/
def getPathF : List Node → List Nat → Option Node
  | _, [] => none
  | ns, i :: q =>
      match ns[i]? with
      | some n => getPathN n q
      | none => none

end

mutual

/-- Substitute `new` for the node addressed by the path inside a node;
everything off the path is kept as is. -/
def replacePathN : Node → List Nat → Node → Node
  | _, [], new => new
  | Node.elem t a cs, i :: q, new => Node.elem t a (replacePathF cs (i :: q) new)
  | Node.text s, _ :: _, _ => Node.text s

/-- Substitute `new` for the node addressed by the path in a forest. -/
def replacePathF : List Node → List Nat → Node → List Node
  | ns, [], _ => ns
  | ns, i :: q, new =>
      match ns[i]? with
      | some n => ns.set i (replacePathN n q new)
      | none => ns

end

mutual

/-- Preorder search returning the path of the first node satisfying the
predicate together with the node; paths are node-relative (`[]` is the
node itself). -/
def findPathN (pr : Node → Bool) : Node → Option (List Nat × Node)
  | Node.elem t a cs =>
      if pr (Node.elem t a cs) then some ([], Node.elem t a cs)
      else findPathL pr cs
  | Node.text s =>
      if pr (Node.text s) then some ([], Node.text s) else none

/-- Preorder search over a forest, returning a forest path (always
nonempty) and the node found. -/
def findPathL (pr : Node → Bool) : List Node → Option (List Nat × Node)
  | [] => none
  | n :: ns =>
      match findPathN pr n with
      | some (q, m) => some (0 :: q, m)
      | none =>
          match findPathL pr ns with
          | some (i :: q, m) => some ((i + 1) :: q, m)
          | some ([], _) => none
          | none => none

end

/-- What the spec means by an element being unchanged: its tag, its
attribute list and its number of children. -/
def elemView (n : Node) : String × List Attr × Nat :=
  (tagOf n, attrsOf n, (childrenOf n).length)

/-- The warning text of the source's `console.warn`. -/
def warnMsg (f : String) : String :=
  "Input with name \"" ++ f ++ "\" not found"

/-- The new `select`: fresh element, attributes copied from the source
element, one `option` child per entry of `options`, in order. -/
def buildSelect (src : Node) (options : List Opt) : Node :=
  Node.elem "select" (copyAttrs (attrsOf src)) (options.map createOption)

/-- Observable outcome of a call that ran to a `return`: the document
afterwards, the returned value (`none` models the bare `return`), and the
console warnings emitted. -/
structure ReplaceResult where
  doc : List Node
  returned : Option Node
  warnings : List String
deriving Repr

/-- Overall outcome of one call: `thrown` — `querySelector` threw a
SyntaxError on the invalid interpolated selector and the function (which
has no try/catch) propagated it, mutating nothing and emitting no
warning; `injected` — the selector-injection case outside the modelled
fragment (see `parseFieldSelector`); `ran r` — the function returned
normally with observables `r`. -/
inductive RunOutcome where
  | thrown
  | injected
  | ran (r : ReplaceResult)
deriving Repr

/-- The whole of `replaceInputWithSelect(fieldName, options)` run against a
document `doc`.  The lookup matches against the decoded attribute value
`nm` of the interpolated selector; the warning text interpolates the raw
`fieldName`. -/
def replaceInputWithSelect (fieldName : String) (options : List Opt)
    (doc : List Node) : RunOutcome :=
  match parseFieldSelector fieldName with
  | SelectorParse.invalid => RunOutcome.thrown
  | SelectorParse.injected => RunOutcome.injected
  | SelectorParse.attrSelector nm =>
      match findFirstL (isInputNamed nm) doc with
      | none => RunOutcome.ran ⟨doc, none, [warnMsg fieldName]⟩
      | some input =>
          let select := buildSelect input options
          RunOutcome.ran ⟨(replaceFirstL (isInputNamed nm) select doc).getD doc,
            some select, []⟩

/-- The value the call returned to its caller (`none` both for the bare
`return` and for abrupt outcomes, which return no value). -/
def returnedOf : RunOutcome → Option Node
  | RunOutcome.ran r => r.returned
  | _ => none

/-- The console warnings the call emitted (a thrown lookup emits none:
`console.warn` is only reached on the not-found branch). -/
def warningsOf : RunOutcome → List String
  | RunOutcome.ran r => r.warnings
  | _ => []

/-- The document after a normally-returning call. -/
def ranDoc : RunOutcome → Option (List Node)
  | RunOutcome.ran r => some r.doc
  | _ => none

/-! ## Helper lemmas -/

theorem listGetSetSame {α : Type} (l : List α) (i : Nat) (a : α) (h : i < l.length) :
    (l.set i a)[i]? = some a := by
  induction l generalizing i with
  | nil => simp at h
  | cons x xs ih =>
      cases i with
      | zero => simp
      | succ j => simpa using ih j (by simpa using h)

theorem listGetSetDiff {α : Type} (l : List α) (i j : Nat) (a : α) (h : i ≠ j) :
    (l.set i a)[j]? = l[j]? := by
  induction l generalizing i j with
  | nil => simp
  | cons x xs ih =>
      cases i with
      | zero =>
          cases j with
          | zero => exact absurd rfl h
          | succ j' => simp
      | succ i' =>
          cases j with
          | zero => simp
          | succ j' => simpa using ih i' j' (by omega)

theorem listGetSomeLt {α : Type} {l : List α} {i : Nat} {a : α}
    (h : l[i]? = some a) : i < l.length := by
  induction l generalizing i with
  | nil => simp at h
  | cons x xs ih =>
      cases i with
      | zero => simp
      | succ j => simpa using ih (by simpa using h)

theorem isInputNamed_hasName (f : String) (n : Node)
    (h : isInputNamed f n = true) : hasNameAttr f n = true := by
  cases n with
  | elem t a cs =>
      unfold isInputNamed at h
      unfold hasNameAttr
      exact ((Bool.and_eq_true _ _).mp h).2
  | text s => simp [isInputNamed] at h

mutual

theorem findFirstN_none_mono (p q : Node → Bool) (himp : ∀ m : Node, p m = true → q m = true) :
    ∀ n : Node, findFirstN q n = none → findFirstN p n = none
  | Node.elem t a cs, h => by
      unfold findFirstN at h ⊢
      by_cases hq : q (Node.elem t a cs) = true
      · simp [hq] at h
      · have hp : p (Node.elem t a cs) = false := by
          cases hpv : p (Node.elem t a cs) with
          | false => rfl
          | true => exact absurd (himp _ hpv) (by simpa using hq)
        have hq' : q (Node.elem t a cs) = false := by simpa using hq
        rw [hq'] at h
        simp only [hp, Bool.false_eq_true, if_false]
        exact findFirstL_none_mono p q himp cs (by simpa using h)
  | Node.text s, h => by
      unfold findFirstN at h ⊢
      by_cases hq : q (Node.text s) = true
      · simp [hq] at h
      · have hp : p (Node.text s) = false := by
          cases hpv : p (Node.text s) with
          | false => rfl
          | true => exact absurd (himp _ hpv) (by simpa using hq)
        simp [hp]

theorem findFirstL_none_mono (p q : Node → Bool) (himp : ∀ m : Node, p m = true → q m = true) :
    ∀ ns : List Node, findFirstL q ns = none → findFirstL p ns = none
  | [], _ => rfl
  | n :: ns, h => by
      unfold findFirstL at h ⊢
      cases hn : findFirstN q n with
      | some r => rw [hn] at h; exact absurd h (by simp)
      | none =>
          rw [hn] at h
          rw [findFirstN_none_mono p q himp n hn]
          exact findFirstL_none_mono p q himp ns h

end

theorem setAttribute_notMem (a : Attr) (acc : List Attr)
    (h : ∀ b ∈ acc, b.name ≠ a.name) :
    setAttribute a.name a.value acc = acc ++ [a] := by
  have hany : acc.any (fun b => b.name == a.name) = false := by
    rw [List.any_eq_false]
    intro b hb
    simpa using h b hb
  unfold setAttribute
  rw [hany]
  simp

theorem copyAttrs_aux (l : List Attr) :
    ∀ acc : List Attr, (∀ a ∈ l, ∀ b ∈ acc, b.name ≠ a.name) →
      (l.map Attr.name).Nodup →
      l.foldl (fun acc a => setAttribute a.name a.value acc) acc = acc ++ l := by
  induction l with
  | nil => intro acc _ _; simp
  | cons a l ih =>
      intro acc hd hn
      have hn' : (a.name :: l.map Attr.name).Nodup := by simpa using hn
      have hnodup := List.nodup_cons.mp hn'
      simp only [List.foldl_cons]
      rw [setAttribute_notMem a acc (hd a (by simp))]
      rw [ih (acc ++ [a]) ?_ hnodup.2]
      · simp
      · intro x hx b hb
        rcases List.mem_append.mp hb with hb | hb
        · exact hd x (List.mem_cons_of_mem _ hx) b hb
        · have hba : b = a := by simpa using hb
          subst hba
          intro he
          exact hnodup.1 (he ▸ List.mem_map_of_mem Attr.name hx)

theorem copyAttrs_self (l : List Attr) (hn : (l.map Attr.name).Nodup) :
    copyAttrs l = l := by
  have := copyAttrs_aux l [] (by simp) hn
  simpa [copyAttrs] using this

theorem findPathL_shape (pr : Node → Bool) (ns : List Node) (q : List Nat) (m : Node)
    (h : findPathL pr ns = some (q, m)) : ∃ i q', q = i :: q' := by
  cases ns with
  | nil => simp [findPathL] at h
  | cons n ns =>
      unfold findPathL at h
      cases hn : findPathN pr n with
      | some r =>
          rw [hn] at h
          obtain ⟨q0, m0⟩ := r
          simp at h
          exact ⟨0, q0, h.1.symm⟩
      | none =>
          rw [hn] at h
          cases hr : findPathL pr ns with
          | none => rw [hr] at h; simp at h
          | some r =>
              rw [hr] at h
              obtain ⟨qr, mr⟩ := r
              cases qr with
              | nil => simp at h
              | cons i q' =>
                  simp at h
                  exact ⟨i + 1, q', h.1.symm⟩

mutual

theorem findPathN_sound (pr : Node → Bool) :
    ∀ (n : Node) (q : List Nat) (m : Node), findPathN pr n = some (q, m) →
      getPathN n q = some m ∧ pr m = true
  | Node.elem t a cs, q, m, h => by
      unfold findPathN at h
      by_cases hp : pr (Node.elem t a cs) = true
      · rw [if_pos hp] at h
        simp at h
        obtain ⟨hq, hm⟩ := h
        subst hq; subst hm
        exact ⟨by simp [getPathN], hp⟩
      · rw [if_neg hp] at h
        have hs := findPathL_sound pr cs q m h
        obtain ⟨i, q', rfl⟩ := findPathL_shape pr cs q m h
        exact ⟨by simpa [getPathN] using hs.1, hs.2⟩
  | Node.text s, q, m, h => by
      unfold findPathN at h
      by_cases hp : pr (Node.text s) = true
      · rw [if_pos hp] at h
        simp at h
        obtain ⟨hq, hm⟩ := h
        subst hq; subst hm
        exact ⟨by simp [getPathN], hp⟩
      · rw [if_neg hp] at h
        simp at h

theorem findPathL_sound (pr : Node → Bool) :
    ∀ (ns : List Node) (q : List Nat) (m : Node), findPathL pr ns = some (q, m) →
      getPathF ns q = some m ∧ pr m = true
  | [], q, m, h => by simp [findPathL] at h
  | n :: ns, q, m, h => by
      unfold findPathL at h
      cases hn : findPathN pr n with
      | some r =>
          rw [hn] at h
          obtain ⟨q0, m0⟩ := r
          simp at h
          obtain ⟨hq, hm⟩ := h
          subst hq; subst hm
          have hs := findPathN_sound pr n q0 m0 hn
          exact ⟨by simpa [getPathF] using hs.1, hs.2⟩
      | none =>
          rw [hn] at h
          cases hr : findPathL pr ns with
          | none => rw [hr] at h; simp at h
          | some r =>
              rw [hr] at h
              obtain ⟨qr, mr⟩ := r
              cases qr with
              | nil => simp at h
              | cons i q' =>
                  simp at h
                  obtain ⟨hq, hm⟩ := h
                  subst hq; subst hm
                  have hs := findPathL_sound pr ns (i :: q') mr hr
                  exact ⟨by simpa [getPathF] using hs.1, hs.2⟩

end

mutual

theorem findFirstN_eq_findPathN (pr : Node → Bool) :
    ∀ n : Node, findFirstN pr n = (findPathN pr n).map Prod.snd
  | Node.elem t a cs => by
      unfold findFirstN findPathN
      by_cases hp : pr (Node.elem t a cs) = true
      · simp [hp]
      · simp [hp]
        exact findFirstL_eq_findPathL pr cs
  | Node.text s => by
      unfold findFirstN findPathN
      by_cases hp : pr (Node.text s) = true
      · simp [hp]
      · simp [hp]

theorem findFirstL_eq_findPathL (pr : Node → Bool) :
    ∀ ns : List Node, findFirstL pr ns = (findPathL pr ns).map Prod.snd
  | [] => rfl
  | n :: ns => by
      unfold findFirstL findPathL
      rw [findFirstN_eq_findPathN pr n]
      cases hn : findPathN pr n with
      | some r => simp
      | none =>
          simp only [Option.map_none']
          rw [findFirstL_eq_findPathL pr ns]
          cases hr : findPathL pr ns with
          | none => simp
          | some r =>
              obtain ⟨qr, m⟩ := r
              cases qr with
              | nil =>
                  obtain ⟨i, q', heq⟩ := findPathL_shape pr ns [] m hr
                  simp at heq
              | cons i q' => simp

end

mutual

theorem replaceFirstN_none (pr : Node → Bool) (new : Node) :
    ∀ n : Node, findPathN pr n = none → replaceFirstN pr new n = none
  | Node.elem t a cs, h => by
      unfold findPathN at h
      unfold replaceFirstN
      by_cases hp : pr (Node.elem t a cs) = true
      · rw [if_pos hp] at h; simp at h
      · rw [if_neg hp] at h
        rw [if_neg hp]
        rw [replaceFirstL_none pr new cs h]
        rfl
  | Node.text s, h => by
      unfold findPathN at h
      unfold replaceFirstN
      by_cases hp : pr (Node.text s) = true
      · rw [if_pos hp] at h; simp at h
      · rw [if_neg hp]

theorem replaceFirstL_none (pr : Node → Bool) (new : Node) :
    ∀ ns : List Node, findPathL pr ns = none → replaceFirstL pr new ns = none
  | [], _ => rfl
  | n :: ns, h => by
      unfold findPathL at h
      unfold replaceFirstL
      cases hn : findPathN pr n with
      | some r => rw [hn] at h; obtain ⟨q, m⟩ := r; simp at h
      | none =>
          rw [hn] at h
          rw [replaceFirstN_none pr new n hn]
          cases hr : findPathL pr ns with
          | none => rw [replaceFirstL_none pr new ns hr]; rfl
          | some r =>
              obtain ⟨qr, m⟩ := r
              cases qr with
              | nil =>
                  obtain ⟨i, q', heq⟩ := findPathL_shape pr ns [] m hr
                  simp at heq
              | cons i q' => rw [hr] at h; simp at h

end

mutual

theorem replaceFirstN_path (pr : Node → Bool) (new : Node) :
    ∀ (n : Node) (q : List Nat) (m : Node), findPathN pr n = some (q, m) →
      replaceFirstN pr new n = some (replacePathN n q new)
  | Node.elem t a cs, q, m, h => by
      unfold findPathN at h
      unfold replaceFirstN
      by_cases hp : pr (Node.elem t a cs) = true
      · rw [if_pos hp] at h
        simp at h
        obtain ⟨hq, hm⟩ := h
        subst hq
        rw [if_pos hp]
        simp [replacePathN]
      · rw [if_neg hp] at h
        obtain ⟨i, q', rfl⟩ := findPathL_shape pr cs q m h
        rw [if_neg hp]
        rw [replaceFirstL_path pr new cs (i :: q') m h]
        simp [replacePathN]
  | Node.text s, q, m, h => by
      unfold findPathN at h
      unfold replaceFirstN
      by_cases hp : pr (Node.text s) = true
      · rw [if_pos hp] at h
        simp at h
        obtain ⟨hq, hm⟩ := h
        subst hq
        rw [if_pos hp]
        simp [replacePathN]
      · rw [if_neg hp] at h
        simp at h

theorem replaceFirstL_path (pr : Node → Bool) (new : Node) :
    ∀ (ns : List Node) (q : List Nat) (m : Node), findPathL pr ns = some (q, m) →
      replaceFirstL pr new ns = some (replacePathF ns q new)
  | [], q, m, h => by simp [findPathL] at h
  | n :: ns, q, m, h => by
      unfold findPathL at h
      unfold replaceFirstL
      cases hn : findPathN pr n with
      | some r =>
          rw [hn] at h
          obtain ⟨q0, m0⟩ := r
          simp at h
          obtain ⟨hq, hm⟩ := h
          subst hq; subst hm
          rw [replaceFirstN_path pr new n q0 m0 hn]
          simp [replacePathF]
      | none =>
          rw [hn] at h
          rw [replaceFirstN_none pr new n hn]
          cases hr : findPathL pr ns with
          | none => rw [hr] at h; simp at h
          | some r =>
              rw [hr] at h
              obtain ⟨qr, mr⟩ := r
              cases qr with
              | nil =>
                  obtain ⟨i, q', heq⟩ := findPathL_shape pr ns [] mr hr
                  simp at heq
              | cons i q' =>
                  simp at h
                  obtain ⟨hq, hm⟩ := h
                  subst hq; subst hm
                  rw [replaceFirstL_path pr new ns (i :: q') mr hr]
                  have hget := (findPathL_sound pr ns (i :: q') mr hr).1
                  unfold getPathF at hget
                  cases hg : ns[i]? with
                  | none => rw [hg] at hget; simp at hget
                  | some n' => simp [replacePathF, hg]

end

theorem replacePathF_length (ns : List Node) (p : List Nat) (new : Node) :
    (replacePathF ns p new).length = ns.length := by
  cases p with
  | nil => simp [replacePathF]
  | cons i q =>
      cases hg : ns[i]? with
      | none => simp [replacePathF, hg]
      | some n => simp [replacePathF, hg]

mutual

theorem getPathF_replace_self :
    ∀ (ns : List Node) (q : List Nat) (m new : Node), getPathF ns q = some m →
      getPathF (replacePathF ns q new) q = some new
  | ns, [], m, new, h => by simp [getPathF] at h
  | ns, i :: q', m, new, h => by
      unfold getPathF at h
      cases hg : ns[i]? with
      | none => rw [hg] at h; simp at h
      | some n =>
          rw [hg] at h
          simp only [replacePathF, hg]
          unfold getPathF
          rw [listGetSetSame ns i _ (listGetSomeLt hg)]
          exact getPathN_replace_self n q' m new h
termination_by _ q _ _ _ => (q.length, 0)

theorem getPathN_replace_self :
    ∀ (n : Node) (q : List Nat) (m new : Node), getPathN n q = some m →
      getPathN (replacePathN n q new) q = some new
  | n, [], m, new, h => by simp [replacePathN, getPathN]
  | Node.elem t a cs, i :: q', m, new, h => by
      have h' : getPathF cs (i :: q') = some m := by simpa [getPathN] using h
      simpa [replacePathN, getPathN] using
        getPathF_replace_self cs (i :: q') m new h'
  | Node.text t, i :: q', m, new, h => by simp [getPathN] at h
termination_by _ q _ _ _ => (q.length, 1)

end

mutual

theorem getPathF_replace_frame :
    ∀ (ns : List Node) (p q : List Nat) (new : Node),
      (∀ s, q ≠ p ++ s) → (∀ s, p ≠ q ++ s) →
      getPathF (replacePathF ns p new) q = getPathF ns q
  | ns, [], q, new, h1, h2 => by simp [replacePathF]
  | ns, i :: p', q, new, h1, h2 => by
      cases hg : ns[i]? with
      | none => simp [replacePathF, hg]
      | some n =>
          cases q with
          | nil => simp [replacePathF, hg, getPathF]
          | cons j q' =>
              by_cases hij : i = j
              · subst hij
                simp only [replacePathF, hg]
                unfold getPathF
                rw [listGetSetSame ns i _ (listGetSomeLt hg), hg]
                exact getPathN_replace_frame n p' q' new
                  (fun s hs => h1 s (by simp [hs]))
                  (fun s hs => h2 s (by simp [hs]))
              · simp only [replacePathF, hg]
                unfold getPathF
                rw [listGetSetDiff ns i j _ hij]
termination_by _ p _ _ _ _ => (p.length, 0)

theorem getPathN_replace_frame :
    ∀ (n : Node) (p q : List Nat) (new : Node),
      (∀ s, q ≠ p ++ s) → (∀ s, p ≠ q ++ s) →
      getPathN (replacePathN n p new) q = getPathN n q
  | n, [], q, new, h1, h2 => (h1 q (by simp)).elim
  | Node.text t, i :: p', q, new, h1, h2 => by simp [replacePathN]
  | Node.elem t a cs, i :: p', q, new, h1, h2 => by
      cases q with
      | nil => exact (h2 (i :: p') (by simp)).elim
      | cons j q' =>
          simpa [replacePathN, getPathN] using
            getPathF_replace_frame cs (i :: p') (j :: q') new h1 h2
termination_by _ p _ _ _ _ => (p.length, 1)

end

mutual

theorem getPathF_replace_ancestor :
    ∀ (ns : List Node) (q s : List Nat) (new : Node), s ≠ [] →
      (getPathF (replacePathF ns (q ++ s) new) q).map elemView =
        (getPathF ns q).map elemView
  | ns, [], s, new, hs => by simp [getPathF]
  | ns, j :: q', s, new, hs => by
      rw [List.cons_append]
      cases hg : ns[j]? with
      | none => simp [replacePathF, hg]
      | some n =>
          simp only [replacePathF, hg]
          unfold getPathF
          rw [listGetSetSame ns j _ (listGetSomeLt hg), hg]
          exact getPathN_replace_ancestor n q' s new hs
termination_by _ q _ _ _ => (q.length, 0)

theorem getPathN_replace_ancestor :
    ∀ (n : Node) (q s : List Nat) (new : Node), s ≠ [] →
      (getPathN (replacePathN n (q ++ s) new) q).map elemView =
        (getPathN n q).map elemView
  | n, [], s, new, hs => by
      cases s with
      | nil => exact absurd rfl hs
      | cons k s' =>
          cases n with
          | text t => simp [replacePathN]
          | elem t a cs =>
              simp [replacePathN, getPathN, elemView, tagOf, attrsOf, childrenOf,
                replacePathF_length]
  | Node.text t, k :: q', s, new, hs => by simp [replacePathN, getPathN]
  | Node.elem t a cs, k :: q', s, new, hs => by
      rw [List.cons_append]
      simpa [replacePathN, getPathN] using
        getPathF_replace_ancestor cs (k :: q') s new hs
termination_by _ q _ _ _ => (q.length, 1)

end

mutual

theorem findFirstN_eq_preorder (pr : Node → Bool) :
    ∀ n : Node, findFirstN pr n = (preorderN n).find? pr
  | Node.elem t a cs => by
      unfold findFirstN preorderN
      by_cases hp : pr (Node.elem t a cs) = true
      · rw [if_pos hp, List.find?_cons_of_pos _ hp]
      · have hp' : pr (Node.elem t a cs) = false := by simpa using hp
        rw [if_neg hp, List.find?_cons_of_neg _ (by simp [hp'])]
        exact findFirstL_eq_preorder pr cs
  | Node.text s => by
      unfold findFirstN preorderN
      by_cases hp : pr (Node.text s) = true
      · rw [if_pos hp, List.find?_cons_of_pos _ hp]
      · have hp' : pr (Node.text s) = false := by simpa using hp
        rw [if_neg hp, List.find?_cons_of_neg _ (by simp [hp'])]
        rfl

theorem findFirstL_eq_preorder (pr : Node → Bool) :
    ∀ ns : List Node, findFirstL pr ns = (preorderL ns).find? pr
  | [] => rfl
  | n :: ns => by
      unfold findFirstL preorderL
      rw [List.find?_append, ← findFirstN_eq_preorder pr n,
        ← findFirstL_eq_preorder pr ns]
      cases findFirstN pr n <;> rfl

end

/-! ## The plain-selector region -/

theorem plainChar_spec (c : Char) (h : plainChar c = true) :
    c ≠ '"' ∧ c ≠ '\\' ∧ c ≠ '\n' ∧ c ≠ '\r' ∧ c ≠ '\x0C' ∧ c ≠ '\x00' := by
  simp only [plainChar, Bool.and_eq_true, bne, Bool.not_eq_true', beq_eq_false_iff_ne] at h
  tauto

theorem cssPreprocess_cons_plain (c : Char) (cs : List Char)
    (h1 : c ≠ '\r') (h2 : c ≠ '\x0C') (h3 : c ≠ '\x00') :
    cssPreprocess (c :: cs) = c :: cssPreprocess cs := by
  cases cs with
  | nil => simp [cssPreprocess, h1, h2, h3]
  | cons c2 cs2 => simp [cssPreprocess, h1, h2, h3]

theorem cssPreprocess_plain (cs : List Char) (h : ∀ c ∈ cs, plainChar c = true) :
    cssPreprocess cs = cs := by
  induction cs with
  | nil => rfl
  | cons c cs ih =>
      have hc := plainChar_spec c (h c (List.mem_cons_self c cs))
      rw [cssPreprocess_cons_plain c cs hc.2.2.2.1 hc.2.2.2.2.1 hc.2.2.2.2.2]
      rw [ih (fun x hx => h x (List.mem_cons_of_mem c hx))]

theorem cssRun_plain (cs : List Char) (acc : List Char)
    (h : ∀ c ∈ cs, plainChar c = true) :
    cssRun (CssState.normal acc) (cs ++ ['"', ']']) =
      some (acc.reverse ++ cs, [']']) := by
  induction cs generalizing acc with
  | nil => simp [cssRun]
  | cons c cs ih =>
      have hc := plainChar_spec c (h c (List.mem_cons_self c cs))
      simp only [List.cons_append, cssRun]
      rw [if_neg hc.1, if_neg hc.2.2.1, if_neg hc.2.1]
      simpa using ih (c :: acc) (fun x hx => h x (List.mem_cons_of_mem c hx))

/-- For a plain field name the interpolated selector is the attribute
selector denoting the field name itself. -/
theorem parse_plain (f : String) (h : plainField f = true) :
    parseFieldSelector f = SelectorParse.attrSelector f := by
  have hall : ∀ c ∈ f.data, plainChar c = true := by
    simpa [plainField, List.all_eq_true] using h
  unfold parseFieldSelector cssString
  rw [cssPreprocess_plain f.data hall, cssRun_plain f.data [] hall]
  simp

/-! ## Behaviour of the top-level function -/

theorem replace_notFound (f nm : String) (opts : List Opt) (doc : List Node)
    (hp : parseFieldSelector f = SelectorParse.attrSelector nm)
    (h : findFirstL (isInputNamed nm) doc = none) :
    replaceInputWithSelect f opts doc = RunOutcome.ran ⟨doc, none, [warnMsg f]⟩ := by
  unfold replaceInputWithSelect
  simp only [hp]
  rw [h]

theorem replace_found (f nm : String) (opts : List Opt) (doc : List Node) (src : Node)
    (hp : parseFieldSelector f = SelectorParse.attrSelector nm)
    (h : findFirstL (isInputNamed nm) doc = some src) :
    replaceInputWithSelect f opts doc =
      RunOutcome.ran ⟨(replaceFirstL (isInputNamed nm) (buildSelect src opts) doc).getD doc,
        some (buildSelect src opts), []⟩ := by
  unfold replaceInputWithSelect
  simp only [hp]
  rw [h]

theorem findPathL_of_findFirstL (pr : Node → Bool) (ns : List Node) (src : Node)
    (h : findFirstL pr ns = some src) :
    ∃ p, findPathL pr ns = some (p, src) := by
  rw [findFirstL_eq_findPathL] at h
  cases hr : findPathL pr ns with
  | none => rw [hr] at h; simp at h
  | some r =>
      obtain ⟨q, m⟩ := r
      rw [hr] at h
      simp at h
      exact ⟨q, by rw [h]⟩

theorem replace_found_path (f nm : String) (opts : List Opt) (doc : List Node)
    (p : List Nat) (src : Node)
    (hp : parseFieldSelector f = SelectorParse.attrSelector nm)
    (h : findPathL (isInputNamed nm) doc = some (p, src)) :
    replaceInputWithSelect f opts doc =
      RunOutcome.ran ⟨replacePathF doc p (buildSelect src opts),
        some (buildSelect src opts), []⟩ := by
  have hf : findFirstL (isInputNamed nm) doc = some src := by
    rw [findFirstL_eq_findPathL, h]; rfl
  rw [replace_found f nm opts doc src hp hf]
  rw [replaceFirstL_path (isInputNamed nm) (buildSelect src opts) doc p src h]
  rfl

theorem replace_noElem (f : String) (opts : List Opt) (doc : List Node)
    (hpl : plainField f = true)
    (h : ∀ n ∈ preorderL doc, hasNameAttr f n = false) :
    replaceInputWithSelect f opts doc = RunOutcome.ran ⟨doc, none, [warnMsg f]⟩ := by
  have hnone : findFirstL (hasNameAttr f) doc = none := by
    rw [findFirstL_eq_preorder]
    exact List.find?_eq_none.mpr (fun x hx => by simp [h x hx])
  exact replace_notFound f f opts doc (parse_plain f hpl)
    (findFirstL_none_mono (isInputNamed f) (hasNameAttr f) (isInputNamed_hasName f) doc hnone)


/-! ## Claims -/

/-- C1, counterexample.  The claim quantifies over documents containing *an
element* with `name = f`; the code's selector only matches `input`
elements.  In a document whose only element named `q` is a `textarea`, the
lookup fails and no selection element is produced at all, contradicting the
claim. -/
theorem C1_counterexample :
    hasNameAttr "q" (Node.elem "textarea" [⟨"name", "q"⟩] []) = true ∧
    returnedOf (replaceInputWithSelect "q" [⟨some "A", some "a"⟩]
        [Node.elem "textarea" [⟨"name", "q"⟩] []]) = none ∧
    warningsOf (replaceInputWithSelect "q" [⟨some "A", some "a"⟩]
        [Node.elem "textarea" [⟨"name", "q"⟩] []]) = [warnMsg "q"] :=
  ⟨rfl, rfl, rfl⟩

/-- C1, amended: for every field name that interpolates into the plain
attribute selector denoting itself (no `"`, `\`, or newline/NUL
characters) and every document containing an *input* element with
`name = f`, `replace(f, opts)` produces a selection element whose
attribute list equals the source element's attribute list exactly — same
keys, same values, same count, in the source's attribute-enumeration
order, with no attribute filtered out (under the DOM invariant that an
element's attribute names are distinct). -/
theorem C1_attrs_copied (f : String) (opts : List Opt) (doc : List Node) (src : Node)
    (hpl : plainField f = true)
    (hfind : findFirstL (isInputNamed f) doc = some src)
    (hnodup : ((attrsOf src).map Attr.name).Nodup) :
    returnedOf (replaceInputWithSelect f opts doc) = some (buildSelect src opts) ∧
    attrsOf (buildSelect src opts) = attrsOf src := by
  constructor
  · rw [replace_found f f opts doc src (parse_plain f hpl) hfind]
    rfl
  · show copyAttrs (attrsOf src) = attrsOf src
    exact copyAttrs_self _ hnodup

/-- Witness for C1 at a concrete document. -/
theorem C1_attrs_copied_witness :
    returnedOf (replaceInputWithSelect "size" []
        [Node.elem "input" [⟨"name", "size"⟩, ⟨"id", "x"⟩, ⟨"class", "y"⟩] []]) =
      some (buildSelect (Node.elem "input" [⟨"name", "size"⟩, ⟨"id", "x"⟩, ⟨"class", "y"⟩] []) []) ∧
    attrsOf (buildSelect (Node.elem "input" [⟨"name", "size"⟩, ⟨"id", "x"⟩, ⟨"class", "y"⟩] []) []) =
      attrsOf (Node.elem "input" [⟨"name", "size"⟩, ⟨"id", "x"⟩, ⟨"class", "y"⟩] []) :=
  C1_attrs_copied "size" [] _ _ (by decide) rfl (by decide)

/-- C2: a call that returned normally with a selection element yields
exactly one choice element per entry of `opts`, in the same order (no
sorting, no de-duplication): the `i`-th choice is built from `opts[i]`, its
displayed text is `opts[i].label` and its submission value is
`opts[i].value` whenever those fields are present. -/
theorem C2_options_in_order (f : String) (opts : List Opt) (doc : List Node)
    (res : ReplaceResult) (sel : Node)
    (hrun : replaceInputWithSelect f opts doc = RunOutcome.ran res)
    (h : res.returned = some sel) :
    childrenOf sel = opts.map createOption ∧
    (childrenOf sel).length = opts.length ∧
    ∀ (i : Nat) (o : Opt), opts[i]? = some o →
      (childrenOf sel)[i]? = some (createOption o) ∧
      (∀ lab, o.label = some lab → textContentN (createOption o) = lab) ∧
      (∀ v, o.value = some v → optionValue (createOption o) = v) := by
  unfold replaceInputWithSelect at hrun
  cases hps : parseFieldSelector f with
  | invalid => rw [hps] at hrun; simp at hrun
  | injected => rw [hps] at hrun; simp at hrun
  | attrSelector nm =>
      simp only [hps] at hrun
      cases hf : findFirstL (isInputNamed nm) doc with
      | none =>
          rw [hf] at hrun
          simp at hrun
          subst hrun
          simp at h
      | some src =>
          rw [hf] at hrun
          simp at hrun
          subst hrun
          simp at h
          subst h
          refine ⟨rfl, by simp [buildSelect, childrenOf], ?_⟩
          intro i o ho
          refine ⟨?_, ?_, ?_⟩
          · show (opts.map createOption)[i]? = some (createOption o)
            simp [ho]
          · intro lab hlab
            by_cases hl : lab = ""
            · subst hl
              simp [createOption, hlab, jsTextContent, setTextContent,
                textContentN, textContentL]
            · simp [createOption, hlab, jsTextContent, setTextContent, hl,
                textContentN, textContentL]
          · intro v hv
            simp [createOption, optionValue, hv, jsString, setAttribute, getAttr, attrsOf]

/-- Witness for C2 at a concrete call with two options. -/
theorem C2_options_in_order_witness :
    (childrenOf (buildSelect (Node.elem "input" [⟨"name", "size"⟩] [])
        [⟨some "Small", some "s"⟩, ⟨some "Large", some "l"⟩]))[0]? =
      some (createOption ⟨some "Small", some "s"⟩) ∧
    textContentN (createOption ⟨some "Small", some "s"⟩) = "Small" ∧
    optionValue (createOption ⟨some "Small", some "s"⟩) = "s" := by
  have h := C2_options_in_order "size" [⟨some "Small", some "s"⟩, ⟨some "Large", some "l"⟩]
      [Node.elem "input" [⟨"name", "size"⟩] []]
      ⟨[buildSelect (Node.elem "input" [⟨"name", "size"⟩] [])
          [⟨some "Small", some "s"⟩, ⟨some "Large", some "l"⟩]],
        some (buildSelect (Node.elem "input" [⟨"name", "size"⟩] [])
          [⟨some "Small", some "s"⟩, ⟨some "Large", some "l"⟩]), []⟩
      (buildSelect (Node.elem "input" [⟨"name", "size"⟩] [])
        [⟨some "Small", some "s"⟩, ⟨some "Large", some "l"⟩]) rfl rfl
  have h0 := h.2.2 0 ⟨some "Small", some "s"⟩ rfl
  exact ⟨h0.1, h0.2.1 "Small" rfl, h0.2.2 "s" rfl⟩

/-- C3, counterexample.  The claim asserts the warning and a not-found
result for *every* fieldName once no element is named fieldName.  For
`fieldName` a single backslash the interpolated selector is
`input[name="\"]`: the escape swallows the closing quote, the string is
unterminated, and `querySelector` throws a SyntaxError — no warning, no
not-found result. -/
theorem C3_counterexample :
    findFirstL (hasNameAttr "\\") [Node.elem "div" [] []] = none ∧
    replaceInputWithSelect "\\" [] [Node.elem "div" [] []] = RunOutcome.thrown ∧
    warningsOf (replaceInputWithSelect "\\" [] [Node.elem "div" [] []]) = [] :=
  ⟨rfl, rfl, rfl⟩

/-- C3, amended: for every field name that interpolates into the plain
attribute selector denoting itself, and every document with no element
named `f` (of any kind), `replace(f, opts)` leaves the document unchanged,
yields a not-found (absent) result, and emits exactly one warning of the
form `Input with name "<fieldName>" not found`. -/
theorem C3_no_element_not_found (f : String) (opts : List Opt) (doc : List Node)
    (hpl : plainField f = true)
    (h : ∀ n ∈ preorderL doc, hasNameAttr f n = false) :
    replaceInputWithSelect f opts doc = RunOutcome.ran ⟨doc, none, [warnMsg f]⟩ :=
  replace_noElem f opts doc hpl h

/-- Witness for C3 at a concrete document. -/
theorem C3_no_element_not_found_witness :
    replaceInputWithSelect "email" [] [Node.elem "input" [⟨"name", "other"⟩] []] =
      RunOutcome.ran ⟨[Node.elem "input" [⟨"name", "other"⟩] []], none,
        ["Input with name \"email\" not found"]⟩ :=
  C3_no_element_not_found "email" [] [Node.elem "input" [⟨"name", "other"⟩] []]
    (by decide) (by decide)

/-- C4, counterexample.  The claim says the call never throws for any
fieldName string.  For `fieldName` a single backslash the interpolated
selector `input[name="\"]` is invalid (the escape swallows the closing
quote) and `querySelector` throws a SyntaxError, which the function does
not catch; there is no FieldNotFound outcome. -/
theorem C4_counterexample :
    replaceInputWithSelect "\\" [⟨some "A", some "a"⟩]
        [Node.elem "input" [⟨"name", "x"⟩] []] = RunOutcome.thrown ∧
    RunOutcome.thrown ≠
      RunOutcome.ran ⟨[Node.elem "input" [⟨"name", "x"⟩] []], none, [warnMsg "\\"]⟩ :=
  ⟨rfl, by simp⟩

/-- C4, amended: for every field name that interpolates into the plain
attribute selector denoting itself, the only possible error is
FieldNotFound — the call never throws, and every non-not-found invocation
completes the replacement.  (For field names containing `"`, `\` or
newline characters the interpolated selector can be invalid, and
`querySelector` then throws a SyntaxError that the function does not
catch.) -/
theorem C4_sole_error_not_found (f : String) (opts : List Opt) (doc : List Node)
    (hpl : plainField f = true) :
    (findFirstL (isInputNamed f) doc = none →
      replaceInputWithSelect f opts doc = RunOutcome.ran ⟨doc, none, [warnMsg f]⟩) ∧
    (∀ src, findFirstL (isInputNamed f) doc = some src →
      replaceFirstL (isInputNamed f) (buildSelect src opts) doc ≠ none ∧
      replaceInputWithSelect f opts doc =
        RunOutcome.ran ⟨(replaceFirstL (isInputNamed f) (buildSelect src opts) doc).getD doc,
          some (buildSelect src opts), []⟩) ∧
    replaceInputWithSelect f opts doc ≠ RunOutcome.thrown ∧
    replaceInputWithSelect f opts doc ≠ RunOutcome.injected := by
  have hp := parse_plain f hpl
  refine ⟨fun h => replace_notFound f f opts doc hp h,
    fun src h => ⟨?_, replace_found f f opts doc src hp h⟩, ?_, ?_⟩
  · obtain ⟨p, hpath⟩ := findPathL_of_findFirstL _ doc src h
    rw [replaceFirstL_path _ _ doc p src hpath]
    simp
  · unfold replaceInputWithSelect
    simp only [hp]
    cases findFirstL (isInputNamed f) doc <;> simp
  · unfold replaceInputWithSelect
    simp only [hp]
    cases findFirstL (isInputNamed f) doc <;> simp

/-- Witness for C4 at a concrete document containing the input. -/
theorem C4_sole_error_not_found_witness :
    replaceInputWithSelect "c4" [] [Node.elem "input" [⟨"name", "c4"⟩] []] =
      RunOutcome.ran ⟨(replaceFirstL (isInputNamed "c4")
          (buildSelect (Node.elem "input" [⟨"name", "c4"⟩] []) [])
          [Node.elem "input" [⟨"name", "c4"⟩] []]).getD
          [Node.elem "input" [⟨"name", "c4"⟩] []],
        some (buildSelect (Node.elem "input" [⟨"name", "c4"⟩] []) []), []⟩ ∧
    replaceInputWithSelect "c4" [] [Node.elem "input" [⟨"name", "c4"⟩] []] ≠
      RunOutcome.thrown ∧
    replaceInputWithSelect "c4" [] [Node.elem "input" [⟨"name", "c4"⟩] []] ≠
      RunOutcome.injected := by
  have h := C4_sole_error_not_found "c4" [] [Node.elem "input" [⟨"name", "c4"⟩] []]
    (by decide)
  exact ⟨(h.2.1 (Node.elem "input" [⟨"name", "c4"⟩] []) rfl).2, h.2.2.1, h.2.2.2⟩

/-- C5, counterexample.  The claim says the lookup selects the first
element whose `name` attribute equals `fieldName` *regardless of the
element's kind*.  In a document whose first element named `f` is a
`textarea` followed by an `input` named `f`, the first element named `f`
is the textarea, yet the code replaces the input: after the call the
textarea is still in place and the second slot holds the new select. -/
theorem C5_counterexample :
    findFirstL (hasNameAttr "f")
        [Node.elem "textarea" [⟨"name", "f"⟩] [], Node.elem "input" [⟨"name", "f"⟩] []] =
      some (Node.elem "textarea" [⟨"name", "f"⟩] []) ∧
    replaceInputWithSelect "f" []
        [Node.elem "textarea" [⟨"name", "f"⟩] [], Node.elem "input" [⟨"name", "f"⟩] []] =
      RunOutcome.ran ⟨[Node.elem "textarea" [⟨"name", "f"⟩] [],
          Node.elem "select" [⟨"name", "f"⟩] []],
        some (Node.elem "select" [⟨"name", "f"⟩] []), []⟩ ∧
    tagOf (Node.elem "textarea" [⟨"name", "f"⟩] []) ≠ "input" :=
  ⟨rfl, rfl, by decide⟩

/-- C5, amended: for every field name that interpolates into the plain
attribute selector denoting itself, the lookup step selects the first
*input* element in document (pre)order whose `name` attribute equals
`fieldName`; elements of other kinds are not selected, and among input
elements the first match in document order wins.  (For field names with
`"`, `\` or newline the interpolated selector may instead throw, match a
different decoded name, or — through injection — match other element
kinds; those cases are outside this clause.) -/
theorem C5_first_input_wins (f : String) (opts : List Opt) (doc : List Node)
    (hpl : plainField f = true) :
    findFirstL (isInputNamed f) doc = (preorderL doc).find? (isInputNamed f) ∧
    returnedOf (replaceInputWithSelect f opts doc) =
      ((preorderL doc).find? (isInputNamed f)).map (fun src => buildSelect src opts) := by
  have hp := parse_plain f hpl
  refine ⟨findFirstL_eq_preorder _ doc, ?_⟩
  cases hf : findFirstL (isInputNamed f) doc with
  | none => rw [replace_notFound f f opts doc hp hf, ← findFirstL_eq_preorder, hf]; rfl
  | some src => rw [replace_found f f opts doc src hp hf, ← findFirstL_eq_preorder, hf]; rfl

/-- Witness for C5: a textarea named `w5` precedes two inputs named `w5`;
the lookup returns the first input. -/
theorem C5_first_input_wins_witness :
    findFirstL (isInputNamed "w5")
        [Node.elem "textarea" [⟨"name", "w5"⟩] [],
         Node.elem "input" [⟨"name", "w5"⟩, ⟨"id", "1"⟩] [],
         Node.elem "input" [⟨"name", "w5"⟩, ⟨"id", "2"⟩] []] =
      (preorderL
        [Node.elem "textarea" [⟨"name", "w5"⟩] [],
         Node.elem "input" [⟨"name", "w5"⟩, ⟨"id", "1"⟩] [],
         Node.elem "input" [⟨"name", "w5"⟩, ⟨"id", "2"⟩] []]).find? (isInputNamed "w5") ∧
    returnedOf (replaceInputWithSelect "w5" []
        [Node.elem "textarea" [⟨"name", "w5"⟩] [],
         Node.elem "input" [⟨"name", "w5"⟩, ⟨"id", "1"⟩] [],
         Node.elem "input" [⟨"name", "w5"⟩, ⟨"id", "2"⟩] []]) =
      ((preorderL
        [Node.elem "textarea" [⟨"name", "w5"⟩] [],
         Node.elem "input" [⟨"name", "w5"⟩, ⟨"id", "1"⟩] [],
         Node.elem "input" [⟨"name", "w5"⟩, ⟨"id", "2"⟩] []]).find?
          (isInputNamed "w5")).map (fun src => buildSelect src []) :=
  C5_first_input_wins "w5" []
    [Node.elem "textarea" [⟨"name", "w5"⟩] [],
     Node.elem "input" [⟨"name", "w5"⟩, ⟨"id", "1"⟩] [],
     Node.elem "input" [⟨"name", "w5"⟩, ⟨"id", "2"⟩] []] (by decide)

/-- C6: on a successful lookup (the interpolated selector parsed to an
attribute selector with decoded name `nm`, and an input named `nm` sits at
path `p`), the new select occupies the exact tree position (same path:
same parent, same sibling index) previously held by the source input, the
source is no longer there (the select differs from it), and the select is
returned to the caller. -/
theorem C6_position_preserved (f nm : String) (opts : List Opt) (doc : List Node)
    (p : List Nat) (src : Node)
    (hp : parseFieldSelector f = SelectorParse.attrSelector nm)
    (h : findPathL (isInputNamed nm) doc = some (p, src)) :
    getPathF doc p = some src ∧
    replaceInputWithSelect f opts doc =
      RunOutcome.ran ⟨replacePathF doc p (buildSelect src opts),
        some (buildSelect src opts), []⟩ ∧
    getPathF (replacePathF doc p (buildSelect src opts)) p =
      some (buildSelect src opts) ∧
    buildSelect src opts ≠ src := by
  have hs := findPathL_sound _ doc p src h
  have hr := replace_found_path f nm opts doc p src hp h
  refine ⟨hs.1, hr, ?_, ?_⟩
  · exact getPathF_replace_self doc p src _ hs.1
  · intro he
    have hpred := hs.2
    rw [← he] at hpred
    simp [isInputNamed, buildSelect] at hpred

/-- Witness for C6: the input sits at path `[0, 1]` (second child of the
form); the select ends up at exactly that path. -/
theorem C6_position_preserved_witness :
    getPathF [Node.elem "form" [] [Node.text "t", Node.elem "input" [⟨"name", "c6"⟩] []]]
        [0, 1] = some (Node.elem "input" [⟨"name", "c6"⟩] []) ∧
    replaceInputWithSelect "c6" []
        [Node.elem "form" [] [Node.text "t", Node.elem "input" [⟨"name", "c6"⟩] []]] =
      RunOutcome.ran
        ⟨replacePathF [Node.elem "form" [] [Node.text "t",
            Node.elem "input" [⟨"name", "c6"⟩] []]] [0, 1]
            (buildSelect (Node.elem "input" [⟨"name", "c6"⟩] []) []),
          some (buildSelect (Node.elem "input" [⟨"name", "c6"⟩] []) []), []⟩ ∧
    getPathF (replacePathF [Node.elem "form" [] [Node.text "t",
        Node.elem "input" [⟨"name", "c6"⟩] []]] [0, 1]
        (buildSelect (Node.elem "input" [⟨"name", "c6"⟩] []) [])) [0, 1] =
      some (buildSelect (Node.elem "input" [⟨"name", "c6"⟩] []) []) ∧
    buildSelect (Node.elem "input" [⟨"name", "c6"⟩] []) [] ≠
      Node.elem "input" [⟨"name", "c6"⟩] [] :=
  C6_position_preserved "c6" "c6" []
    [Node.elem "form" [] [Node.text "t", Node.elem "input" [⟨"name", "c6"⟩] []]]
    [0, 1] (Node.elem "input" [⟨"name", "c6"⟩] []) rfl rfl

/-- C7: on a successful lookup the only document mutation is the single
substitution at the source's path: every subtree disjoint from that path
is unchanged, every proper ancestor keeps its tag, attributes and child
count, and no warning (the only other observable effect) is emitted. -/
theorem C7_single_mutation (f nm : String) (opts : List Opt) (doc : List Node)
    (p : List Nat) (src : Node)
    (hp : parseFieldSelector f = SelectorParse.attrSelector nm)
    (h : findPathL (isInputNamed nm) doc = some (p, src)) :
    replaceInputWithSelect f opts doc =
      RunOutcome.ran ⟨replacePathF doc p (buildSelect src opts),
        some (buildSelect src opts), []⟩ ∧
    (∀ q : List Nat, (∀ s, q ≠ p ++ s) → (∀ s, p ≠ q ++ s) →
      getPathF (replacePathF doc p (buildSelect src opts)) q = getPathF doc q) ∧
    (∀ q s : List Nat, s ≠ [] → p = q ++ s →
      (getPathF (replacePathF doc p (buildSelect src opts)) q).map elemView =
        (getPathF doc q).map elemView) := by
  refine ⟨replace_found_path f nm opts doc p src hp h, ?_, ?_⟩
  · intro q h1 h2
    exact getPathF_replace_frame doc p q _ h1 h2
  · intro q s hs hps
    subst hps
    exact getPathF_replace_ancestor doc q s _ hs

/-- Witness for C7: replacing the input at path `[1, 0]` leaves the
sibling root at path `[0]` untouched and preserves the ancestor `div`'s
tag, attributes and child count at path `[1]`. -/
theorem C7_single_mutation_witness :
    getPathF (replacePathF
        [Node.text "x", Node.elem "div" [⟨"id", "d"⟩] [Node.elem "input" [⟨"name", "c7"⟩] []]]
        [1, 0] (buildSelect (Node.elem "input" [⟨"name", "c7"⟩] []) [])) [0] =
      getPathF [Node.text "x", Node.elem "div" [⟨"id", "d"⟩]
        [Node.elem "input" [⟨"name", "c7"⟩] []]] [0] ∧
    (getPathF (replacePathF
        [Node.text "x", Node.elem "div" [⟨"id", "d"⟩] [Node.elem "input" [⟨"name", "c7"⟩] []]]
        [1, 0] (buildSelect (Node.elem "input" [⟨"name", "c7"⟩] []) [])) [1]).map elemView =
      (getPathF [Node.text "x", Node.elem "div" [⟨"id", "d"⟩]
        [Node.elem "input" [⟨"name", "c7"⟩] []]] [1]).map elemView := by
  have h := C7_single_mutation "c7" "c7" []
      [Node.text "x", Node.elem "div" [⟨"id", "d"⟩] [Node.elem "input" [⟨"name", "c7"⟩] []]]
      [1, 0] (Node.elem "input" [⟨"name", "c7"⟩] []) rfl rfl
  refine ⟨?_, ?_⟩
  · exact h.2.1 [0] (fun s hs => by simp at hs) (fun s hs => by simp at hs)
  · exact h.2.2 [1] [0] (by simp) rfl

/-- C8, counterexample.  The claim quantifies over documents containing
*an element* named `f`; the code only matches `input` elements.  In a
document whose only element named `g` is itself a `select`, the call with
empty options does not succeed: it yields the not-found warning and no
selection element. -/
theorem C8_counterexample :
    hasNameAttr "g" (Node.elem "select" [⟨"name", "g"⟩] []) = true ∧
    returnedOf (replaceInputWithSelect "g" [] [Node.elem "select" [⟨"name", "g"⟩] []]) =
      none ∧
    warningsOf (replaceInputWithSelect "g" [] [Node.elem "select" [⟨"name", "g"⟩] []]) =
      [warnMsg "g"] :=
  ⟨rfl, rfl, rfl⟩

/-- C8, amended: for every field name that interpolates into the plain
attribute selector denoting itself and every document containing an
*input* element named `f`, `replace(f, [])` succeeds without error (no
warning) and produces a selection element with zero choice elements and
all attributes copied from the source element (under the DOM invariant of
distinct attribute names). -/
theorem C8_empty_options (f : String) (doc : List Node) (src : Node)
    (hpl : plainField f = true)
    (hfind : findFirstL (isInputNamed f) doc = some src)
    (hnodup : ((attrsOf src).map Attr.name).Nodup) :
    returnedOf (replaceInputWithSelect f [] doc) = some (buildSelect src []) ∧
    childrenOf (buildSelect src []) = [] ∧
    attrsOf (buildSelect src []) = attrsOf src ∧
    warningsOf (replaceInputWithSelect f [] doc) = [] := by
  have hp := parse_plain f hpl
  refine ⟨?_, rfl, ?_, ?_⟩
  · rw [replace_found f f [] doc src hp hfind]; rfl
  · show copyAttrs (attrsOf src) = attrsOf src
    exact copyAttrs_self _ hnodup
  · rw [replace_found f f [] doc src hp hfind]; rfl

/-- Witness for C8 at a concrete document. -/
theorem C8_empty_options_witness :
    returnedOf (replaceInputWithSelect "c8" []
        [Node.elem "input" [⟨"name", "c8"⟩, ⟨"id", "y"⟩] []]) =
      some (buildSelect (Node.elem "input" [⟨"name", "c8"⟩, ⟨"id", "y"⟩] []) []) ∧
    childrenOf (buildSelect (Node.elem "input" [⟨"name", "c8"⟩, ⟨"id", "y"⟩] []) []) = [] ∧
    attrsOf (buildSelect (Node.elem "input" [⟨"name", "c8"⟩, ⟨"id", "y"⟩] []) []) =
      attrsOf (Node.elem "input" [⟨"name", "c8"⟩, ⟨"id", "y"⟩] []) ∧
    warningsOf (replaceInputWithSelect "c8" []
        [Node.elem "input" [⟨"name", "c8"⟩, ⟨"id", "y"⟩] []]) = [] :=
  C8_empty_options "c8" [Node.elem "input" [⟨"name", "c8"⟩, ⟨"id", "y"⟩] []]
    (Node.elem "input" [⟨"name", "c8"⟩, ⟨"id", "y"⟩] []) (by decide) rfl (by decide)

/-- C9, counterexample.  The claim asserts that for every document with no
element named `f`, two successive calls both produce the same not-found
result with no side effects.  For `fieldName` a single backslash both
calls instead throw a SyntaxError from `querySelector`: there is no
not-found result and no warning at all. -/
theorem C9_counterexample :
    findFirstL (hasNameAttr "\\") [Node.elem "span" [] []] = none ∧
    replaceInputWithSelect "\\" [] [Node.elem "span" [] []] = RunOutcome.thrown ∧
    ranDoc (replaceInputWithSelect "\\" [] [Node.elem "span" [] []]) = none ∧
    warningsOf (replaceInputWithSelect "\\" [] [Node.elem "span" [] []]) = [] :=
  ⟨rfl, rfl, rfl, rfl⟩

/-- C9, amended: idempotence of absence for plain field names — for every
field name that interpolates into the plain attribute selector denoting
itself and every document with no element named `f`, calling
`replace(f, opts)` produces the not-found result, leaves the document
unchanged, and calling it again on the resulting document produces the
identical result. -/
theorem C9_absent_idempotent (f : String) (opts : List Opt) (doc : List Node)
    (hpl : plainField f = true)
    (h : ∀ n ∈ preorderL doc, hasNameAttr f n = false) :
    replaceInputWithSelect f opts doc = RunOutcome.ran ⟨doc, none, [warnMsg f]⟩ ∧
    ∀ d2, ranDoc (replaceInputWithSelect f opts doc) = some d2 →
      replaceInputWithSelect f opts d2 = replaceInputWithSelect f opts doc := by
  have h1 := replace_noElem f opts doc hpl h
  refine ⟨h1, fun d2 hd2 => ?_⟩
  rw [h1] at hd2
  simp [ranDoc] at hd2
  subst hd2
  rfl

/-- Witness for C9 at a concrete document. -/
theorem C9_absent_idempotent_witness :
    replaceInputWithSelect "zzz" [] [Node.elem "div" [⟨"id", "a"⟩] []] =
      RunOutcome.ran ⟨[Node.elem "div" [⟨"id", "a"⟩] []], none, [warnMsg "zzz"]⟩ ∧
    replaceInputWithSelect "zzz" [] [Node.elem "div" [⟨"id", "a"⟩] []] =
      replaceInputWithSelect "zzz" [] [Node.elem "div" [⟨"id", "a"⟩] []] := by
  have h := C9_absent_idempotent "zzz" [] [Node.elem "div" [⟨"id", "a"⟩] []]
    (by decide) (by decide)
  exact ⟨h.1, h.2 [Node.elem "div" [⟨"id", "a"⟩] []] rfl⟩

/-- C10, counterexample.  The claim says a missing `value` propagates as
an empty-string submission value.  `HTMLOptionElement.value` is a
non-nullable DOMString, so assigning the `undefined` read from the
missing property stores the string `"undefined"`: with
`opts = [{label: "lab"}]` the produced choice element's submission value
is `"undefined"`, not the empty string.  (The label half of the claim is
accurate: `textContent` is nullable, so a missing label gives an option
with no text.) -/
theorem C10_counterexample :
    returnedOf (replaceInputWithSelect "h" [⟨some "lab", none⟩]
        [Node.elem "input" [⟨"name", "h"⟩] []]) =
      some (Node.elem "select" [⟨"name", "h"⟩]
        [Node.elem "option" [⟨"value", "undefined"⟩] [Node.text "lab"]]) ∧
    optionValue (Node.elem "option" [⟨"value", "undefined"⟩] [Node.text "lab"]) =
      "undefined" ∧
    ("undefined" : String) ≠ "" :=
  ⟨rfl, rfl, by decide⟩

/-- C10, amended: malformed options are never rejected — a call whose
lookup succeeds still completes — and a missing `label` propagates as
absent/empty displayed text (the option has no text child), while a
missing `value` propagates as the string `"undefined"` (JavaScript's
string coercion of `undefined` into the non-nullable DOMString `value`),
not as the empty string. -/
theorem C10_missing_fields (f nm : String) (opts : List Opt) (doc : List Node) (src : Node)
    (hp : parseFieldSelector f = SelectorParse.attrSelector nm)
    (hfind : findFirstL (isInputNamed nm) doc = some src) :
    returnedOf (replaceInputWithSelect f opts doc) = some (buildSelect src opts) ∧
    warningsOf (replaceInputWithSelect f opts doc) = [] ∧
    ∀ (i : Nat) (o : Opt), opts[i]? = some o →
      (childrenOf (buildSelect src opts))[i]? = some (createOption o) ∧
      (o.value = none → optionValue (createOption o) = "undefined") ∧
      (o.label = none → childrenOf (createOption o) = [] ∧
        textContentN (createOption o) = "") := by
  refine ⟨by rw [replace_found f nm opts doc src hp hfind]; rfl,
    by rw [replace_found f nm opts doc src hp hfind]; rfl, ?_⟩
  intro i o ho
  refine ⟨?_, ?_, ?_⟩
  · show (opts.map createOption)[i]? = some (createOption o)
    simp [ho]
  · intro hv
    simp [createOption, optionValue, hv, jsString, setAttribute, getAttr, attrsOf]
  · intro hl
    constructor
    · simp [createOption, hl, jsTextContent, setTextContent, childrenOf]
    · simp [createOption, hl, jsTextContent, setTextContent, textContentN, textContentL]

/-- Witness for C10: one option with both fields missing gives a choice
with submission value `"undefined"` and no displayed text. -/
theorem C10_missing_fields_witness :
    returnedOf (replaceInputWithSelect "w" [⟨none, none⟩]
        [Node.elem "input" [⟨"name", "w"⟩] []]) =
      some (buildSelect (Node.elem "input" [⟨"name", "w"⟩] []) [⟨none, none⟩]) ∧
    (childrenOf (buildSelect (Node.elem "input" [⟨"name", "w"⟩] []) [⟨none, none⟩]))[0]? =
      some (createOption ⟨none, none⟩) ∧
    optionValue (createOption ⟨none, none⟩) = "undefined" ∧
    childrenOf (createOption ⟨none, none⟩) = [] ∧
    textContentN (createOption ⟨none, none⟩) = "" := by
  have h := C10_missing_fields "w" "w" [⟨none, none⟩]
      [Node.elem "input" [⟨"name", "w"⟩] []] (Node.elem "input" [⟨"name", "w"⟩] []) rfl rfl
  have h0 := h.2.2 0 ⟨none, none⟩ rfl
  exact ⟨h.1, h0.1, h0.2.1 rfl, (h0.2.2 rfl).1, (h0.2.2 rfl).2⟩

end InputIntoSelect
